import Mathlib

/-!
Verification of the Finder image-similarity server.

The development shallowly embeds the Python sources:

* `finder/processing/similarity.py` — `calc_similarity`, `calc_similarities`
* `finder/processing/loading.py`    — `load_features`
* `finder/utils/utils.py`           — `extract_name_extension`
* `server.py`                       — `find_image`, `save_image`,
  `update_images`, `cleanup_expired_requests`, the request cache

Numpy float arrays are modelled as real-valued vectors `Fin n → ℝ`.
Scalar results of numpy computations are modelled by `NpF`, a real number
or NaN: the only NaN source reachable in this code is the `0/0` produced
by the cosine division when a vector has zero norm (a zero norm forces a
zero dot product, so the `x/0 = ±inf` case of IEEE arithmetic is not
reachable through these definitions; `NpF.div` maps every division by
zero to NaN, which is faithful on all reachable inputs).  Comparisons
against NaN are false, as in IEEE arithmetic.

Python dicts are modelled as insertion-ordered association lists, and
`list.sort(key=..., reverse=True)` as a stable merge sort on the key
order.  Timestamps are rationals (seconds).
-/

namespace Finder

/-- Vectors: a numpy `ndarray` of fixed dimensionality `n`. -/
def Vec (n : ℕ) : Type := Fin n → ℝ

/-- Model of `np.dot` for equal-length 1-d arrays. -/
def npDot {n : ℕ} (a b : Vec n) : ℝ := ∑ i, a i * b i

/-- Model of `np.linalg.norm` for 1-d arrays: the euclidean norm. -/
noncomputable def npNorm {n : ℕ} (a : Vec n) : ℝ := Real.sqrt (npDot a a)

/-- Pointwise difference of arrays, `vector1 - vector2`. -/
def vsub {n : ℕ} (a b : Vec n) : Vec n := fun i => a i - b i

/-- Scalar result of a numpy float computation: a real value or NaN. -/
inductive NpF where
  | nan
  | val (x : ℝ)

namespace NpF

/-- Addition; NaN propagates. -/
def add : NpF → NpF → NpF
  | val a, val b => val (a + b)
  | _, _ => nan

/-- Subtraction; NaN propagates. -/
def sub : NpF → NpF → NpF
  | val a, val b => val (a - b)
  | _, _ => nan

/-- Multiplication; NaN propagates. -/
def mul : NpF → NpF → NpF
  | val a, val b => val (a * b)
  | _, _ => nan

/-- Division; NaN propagates, and division by zero yields NaN (the only
reachable division-by-zero in this code base is `0/0`). -/
noncomputable def div : NpF → NpF → NpF
  | val a, val b => if b = 0 then nan else val (a / b)
  | _, _ => nan

/-- Model of `np.exp`; `exp NaN = NaN`. -/
noncomputable def exp : NpF → NpF
  | val a => val (Real.exp a)
  | nan => nan

/-- Strict comparison `a < b`; false whenever either side is NaN. -/
def lt : NpF → NpF → Prop
  | val a, val b => a < b
  | _, _ => False

/-- Comparison `a ≤ b`; false whenever either side is NaN. -/
def le : NpF → NpF → Prop
  | val a, val b => a ≤ b
  | _, _ => False

/-- Classically decide a proposition into a `Bool`. -/
noncomputable def pdec (p : Prop) : Bool := @decide p (Classical.propDecidable p)

/-- Total key order used to model Python sort on score keys.  On real
values it is the usual `≤`; NaN keys are ordered arbitrarily (Python
Timsort output is unspecified for NaN keys). -/
def sortLe : NpF → NpF → Prop
  | nan, _ => True
  | val _, nan => False
  | val a, val b => a ≤ b

/-- Boolean form of `sortLe`. -/
noncomputable def keyLe (a b : NpF) : Bool := pdec (sortLe a b)

end NpF

/-- Embedding of `calc_similarity` (`similarity.py`, lines 9–29).
Python defaults are `cosine_penalty_factor = 4`,
`euclidean_penalty_factor = 0.1`; all call sites here pass both factors
explicitly, as `calc_similarities` does. -/
noncomputable def calc_similarity {n : ℕ} (vector1 vector2 : Vec n)
    (cosine_penalty_factor euclidean_penalty_factor : ℝ) : NpF :=
  let cosine_sim := NpF.div (NpF.val (npDot vector1 vector2))
    (NpF.val (npNorm vector1 * npNorm vector2))
  let cosine_distance := NpF.sub (NpF.val 1) cosine_sim
  let euclidean_distance := npNorm (vsub vector1 vector2)
  let adjusted_cosine_similarity :=
    NpF.exp (NpF.mul (NpF.val (-cosine_penalty_factor)) cosine_distance)
  let adjusted_euclidean_similarity := NpF.div (NpF.val 1)
    (NpF.val (1 + euclidean_penalty_factor * euclidean_distance))
  NpF.div (NpF.add adjusted_cosine_similarity adjusted_euclidean_similarity)
    (NpF.val 2)

/-- The guard `min_similarity and similarity < min_similarity` of
`calc_similarities`: a `None` or `0.0` threshold is falsy and disables
the filter. -/
noncomputable def minSkip (min_similarity : Option ℝ) (similarity : NpF) : Bool :=
  match min_similarity with
  | none => false
  | some m => NpF.pdec (¬ m = 0) && NpF.pdec (NpF.lt similarity (NpF.val m))

/-- The guard `max_similarity and similarity >= max_similarity` of
`calc_similarities`: a `None` or `0.0` threshold is falsy and disables
the early exit. -/
noncomputable def maxHit (max_similarity : Option ℝ) (similarity : NpF) : Bool :=
  match max_similarity with
  | none => false
  | some m => NpF.pdec (¬ m = 0) && NpF.pdec (NpF.le (NpF.val m) similarity)

/-- Stable descending sort by score:
`comparison_results.sort(key=lambda x: x[1], reverse=True)`. -/
noncomputable def sortDesc (l : List (String × NpF)) : List (String × NpF) :=
  l.mergeSort (fun a b => NpF.keyLe b.2 a.2)

/-- The `for path, vector in vectors.items()` loop of `calc_similarities`
(`similarity.py`, lines 43–52).  `Sum.inl` is the early `return`
triggered by the max-similarity guard; `Sum.inr` is normal completion
carrying the accumulated `comparison_results`. -/
noncomputable def scanLoop {n : ℕ} (reference_vector : Vec n)
    (min_similarity max_similarity : Option ℝ)
    (cosine_penalty_factor euclidean_penalty_factor : ℝ)
    (comparison_results : List (String × NpF)) :
    List (String × Vec n) → List (String × NpF) ⊕ List (String × NpF)
  | [] => Sum.inr comparison_results
  | (path, vector) :: rest =>
    let similarity := calc_similarity reference_vector vector
      cosine_penalty_factor euclidean_penalty_factor
    if minSkip min_similarity similarity then
      scanLoop reference_vector min_similarity max_similarity
        cosine_penalty_factor euclidean_penalty_factor comparison_results rest
    else if maxHit max_similarity similarity then
      Sum.inl [(path, similarity)]
    else
      scanLoop reference_vector min_similarity max_similarity
        cosine_penalty_factor euclidean_penalty_factor
        (comparison_results ++ [(path, similarity)]) rest

/-- Embedding of `calc_similarities` (`similarity.py`, lines 32–56).
Python defaults are `min_similarity = 0.2`, `max_similarity = 0.9`,
`cosine_penalty_factor = 4`, `euclidean_penalty_factor = 0.2`; callers
here always pass them explicitly.  Dict iteration order is the insertion
order of the association list. -/
noncomputable def calc_similarities {n : ℕ} (reference_vector : Vec n)
    (vectors : List (String × Vec n))
    (min_similarity max_similarity : Option ℝ)
    (cosine_penalty_factor euclidean_penalty_factor : ℝ) : List (String × NpF) :=
  match scanLoop reference_vector min_similarity max_similarity
      cosine_penalty_factor euclidean_penalty_factor [] vectors with
  | Sum.inl earlyResult => earlyResult
  | Sum.inr comparison_results => sortDesc comparison_results

/-- Dict read, `d.get(k)` / `d[k]`: first binding of the key wins (keys
are unique in a Python dict). -/
def dictGet {α : Type} (k : String) : List (String × α) → Option α
  | [] => none
  | (k0, v) :: rest => if k0 = k then some v else dictGet k rest

/-- Dict write, `d[k] = v`: replaces the existing binding in place
(keeping its position, as Python dicts do) or appends a fresh one. -/
def dictInsert {α : Type} (d : List (String × α)) (k : String) (v : α) :
    List (String × α) :=
  match d with
  | [] => [(k, v)]
  | (k0, v0) :: rest =>
    if k0 = k then (k, v) :: rest else (k0, v0) :: dictInsert rest k v

/-- Dict removal, `d.pop(k)`. -/
def dictRemove {α : Type} (d : List (String × α)) (k : String) :
    List (String × α) :=
  d.filter (fun kv => decide (¬ kv.1 = k))

/-- Opaque handle for a decoded PIL image. -/
abbrev Img : Type := ℕ

/-- Embedding of `RequestCacheEntry` (`server.py`, lines 26–33).
`created` is the `datetime.now()` timestamp in seconds. -/
structure RequestCacheEntry (n : ℕ) where
  created : ℚ
  image : Img
  hash : String
  features : Vec n
  saved : Bool
  tweeted : Bool
  tweet_id : Option ℤ

/-- The mutable server maps (`server.py`, lines 48–50) together with the
set of files existing on disk (both the images and the cache
directory), each file named by its full path string. -/
structure ServerState (n : ℕ) where
  images : List (String × Vec n)
  requests_cache : List (String × RequestCacheEntry n)
  files : List String

/-- Embedding of `cleanup_expired_requests` (`server.py`, lines
228–236): collects every key whose age strictly exceeds
`request_expire` and pops it; net effect, keep exactly the entries with
`now - created ≤ request_expire`.  The flags play no role. -/
def cleanup_expired_requests {n : ℕ}
    (requests_cache : List (String × RequestCacheEntry n))
    (now request_expire : ℚ) : List (String × RequestCacheEntry n) :=
  requests_cache.filter (fun kv => decide (¬ now - kv.2.created > request_expire))

/-- Target image path of `save_image`:
`(IMAGES_DIR / cache["hash"]).with_suffix(".jpeg")`. -/
def save_path (images_dir hash : String) : String :=
  images_dir ++ "/" ++ hash ++ ".jpeg"

/-- Target fingerprint path of `save_image`:
`(CACHE_DIR / cache["hash"]).with_suffix(".jpeg.npy")`. -/
def features_save_path (cache_dir hash : String) : String :=
  cache_dir ++ "/" ++ hash ++ ".jpeg.npy"

/-- Outcome of the `/image/save` endpoint. -/
inductive SaveResult where
  | notFound
  | conflict (url : String)
  | ok (url : String)
deriving DecidableEq

/-- Embedding of `save_image` (`server.py`, lines 144–198): look the
request up in the cache (404 if absent), 409 if both target files
already exist, otherwise write both files, publish the features under
the image path, mark the entry saved and pop it when it is also
tweeted. -/
def save_image {n : ℕ} (st : ServerState n)
    (images_dir cache_dir base_url request_id : String) :
    SaveResult × ServerState n :=
  match dictGet request_id st.requests_cache with
  | none => (SaveResult.notFound, st)
  | some cache =>
    let sp := save_path images_dir cache.hash
    let fsp := features_save_path cache_dir cache.hash
    let url := base_url ++ "image/" ++ cache.hash ++ ".jpeg"
    if sp ∈ st.files ∧ fsp ∈ st.files then
      (SaveResult.conflict url, st)
    else
      let files2 := fsp :: sp :: st.files
      let images2 := dictInsert st.images sp cache.features
      let cache2 := { cache with saved := true }
      let rc2 := dictInsert st.requests_cache request_id cache2
      let rc3 := if cache2.saved && cache2.tweeted then dictRemove rc2 request_id else rc2
      (SaveResult.ok url,
        { st with files := files2, images := images2, requests_cache := rc3 })

/-- Instrumented result of one `load_features` run: the returned
`features` mapping, the `np.save` writes performed (in loop order), and
the paths on which `extract_func` was invoked. -/
structure LoadOutcome (n : ℕ) where
  features : List (String × Vec n)
  saved : List (String × Vec n)
  extracted : List String

/-- The `for path in image_files` loop of `load_features`
(`loading.py`, lines 34–50).  `cached` is the snapshot of
`cached_files` taken before the loop (keyed by `file.stem`, which for a
file written as `cache_dir/<name>.npy` is exactly the image file name);
`ef` composes `Image.open ∘ convert` with `extract_func` as a pure
function of the image path, deterministic per spec §6. -/
def lfGo {n : ℕ} (cached : List (String × Vec n)) (ef : String → Vec n)
    (load_cache save_cache : Bool) : List String → LoadOutcome n
  | [] => ⟨[], [], []⟩
  | path :: rest =>
    let r := lfGo cached ef load_cache save_cache rest
    match (if load_cache then dictGet path cached else none) with
    | some feats => ⟨(path, feats) :: r.features, r.saved, r.extracted⟩
    | none =>
      let v := ef path
      ⟨(path, v) :: r.features,
        (if save_cache then (path, v) :: r.saved else r.saved),
        path :: r.extracted⟩

/-- Embedding of `load_features` (`loading.py`, lines 18–52).
`image_files` is the directory listing `list_files(images_dir,
image_extensions)` (file names, in listing order); `cached` is the
content of the cache directory as a mapping from stem to stored
vector. -/
def load_features {n : ℕ} (image_files : List String)
    (cached : List (String × Vec n)) (ef : String → Vec n)
    (save_cache load_cache : Bool) : LoadOutcome n :=
  lfGo cached ef load_cache save_cache image_files

/-- Cache-directory content after a `load_features` run: every
`np.save(cache_dir/path.name, feats)` write applied in order. -/
def cacheAfter {n : ℕ} (cached : List (String × Vec n)) (o : LoadOutcome n) :
    List (String × Vec n) :=
  o.saved.foldl (fun c kv => dictInsert c kv.1 kv.2) cached

/-- Embedding of `update_images` (`server.py`, lines 216–225): when the
count of published entries equals the count of image files on disk,
nothing happens; otherwise the whole `images` mapping is replaced by a
fresh `load_features` run.  `disk_files` is the current
`list_files(IMAGES_DIR, image_extensions)` listing, which is also the
listing `load_features` itself reads. -/
def update_images {n : ℕ} (images : List (String × Vec n))
    (disk_files : List String) (cached : List (String × Vec n))
    (ef : String → Vec n) : List (String × Vec n) :=
  if images.length = disk_files.length then images
  else (load_features disk_files cached ef true true).features

/-- Model of `base_url.rstrip("/")`: drop trailing slashes. -/
def rstripSlashChars (s : List Char) : List Char :=
  (s.reverse.dropWhile (fun c => c == '/')).reverse

/-- Boolean test that a character list starts with a given literal. -/
def listStartsWith : List Char → List Char → Bool
  | _, [] => true
  | [], _ :: _ => false
  | c :: cs, p :: ps => c == p && listStartsWith cs ps

/-- Character class `[a-zA-Z0-9]` of the file-name pattern. -/
def isExtChar (c : Char) : Bool := c.isAlpha || c.isDigit

/-- Match of the anchored group `([^/]+\.[a-zA-Z0-9]+)$` against a whole
character list: some split around a dot has a nonempty slash-free part
before and a nonempty alphanumeric part after. -/
def nameExtSplit (s : List Char) : Bool :=
  (List.range s.length).any (fun i =>
    decide (0 < i) &&
    (s.take i).all (fun c => !(c == '/')) &&
    (s.getD i ' ' == '.') &&
    decide (i + 1 < s.length) &&
    (s.drop (i + 1)).all isExtChar)

/-- Embedding of `extract_name_extension` (`utils.py`, lines 35–39):
matches `url` against
`^<base_url.rstrip("/")>/image/([^/]+\.[a-zA-Z0-9]+)$` and returns the
captured file name. -/
def extract_name_extension (url base_url : String) : Option String :=
  let pre := rstripSlashChars base_url.data ++ ("/image/").data
  let u := url.data
  if listStartsWith u pre then
    let rest := u.drop pre.length
    if nameExtSplit rest then some (String.mk rest) else none
  else none

/-- Model of `Path(p).name`: the part of the path after the last
slash. -/
def pathName (p : String) : String :=
  String.mk ((p.data.reverse.takeWhile (fun c => !(c == '/'))).reverse)

/-- Check `bool(results) and results[0][1] >= 0.99` of `find_image`. -/
noncomputable def isExactMatch (results : List (String × NpF)) : Bool :=
  match results with
  | [] => false
  | r :: _ => NpF.pdec (NpF.le (NpF.val 0.99) r.2)

/-- Outcome of the `/image/find` endpoint: the 404 raised for a
self-URL naming a missing file, the 400 raised when the image cannot be
loaded, or a 200 payload with the fresh `request_id` and the result
list of `(url, similarity)` pairs. -/
inductive FindOutcome where
  | httpNotFound
  | httpBadRequest
  | ok (request_id : String) (results : List (String × NpF))

/-- Embedding of `find_image` (`server.py`, lines 57–137).  `request_id`
is the fresh `uuid1` string; `now` is `datetime.now()`;
`load_image_from_url`, `extract` and `imageHash` model the external
collaborators (`requests`+PIL decoding, the feature extractor, and
`bytes_to_hash(image.tobytes()).hex()`).  Only `max_similarity` is
forwarded to `calc_similarities`, so its `0.9` default is always
overridden; `min_similarity` stays at its `0.2` default and the
euclidean penalty factor at the `calc_similarities` default `0.2`.
The numpy pipeline raises no exception on NaN scores, so the
`try`/`except` around the similarity computation has no error path in
this model. -/
noncomputable def find_image {n : ℕ} (st : ServerState n)
    (base_url url : String) (max_results : ℕ) (max_similarity : Option ℝ)
    (request_id : String) (now : ℚ)
    (load_image_from_url : String → Option Img) (extract : Img → Vec n)
    (imageHash : Img → String) (images_dir : String) :
    FindOutcome × ServerState n :=
  match extract_name_extension url base_url with
  | some file_name =>
    if images_dir ++ "/" ++ file_name ∈ st.files then
      (FindOutcome.ok request_id
        [(base_url ++ "image/" ++ file_name, NpF.val 1)], st)
    else
      (FindOutcome.httpNotFound, st)
  | none =>
    match load_image_from_url url with
    | none => (FindOutcome.httpBadRequest, st)
    | some image =>
      let features := extract image
      let results := (calc_similarities features st.images
        (some 0.2) max_similarity 4 0.2).take max_results
      let image_hash := imageHash image
      let exact := isExactMatch results
      let entry : RequestCacheEntry n :=
        ⟨now, image, image_hash, features, exact, exact, none⟩
      (FindOutcome.ok request_id
        (results.map (fun pr => (base_url ++ "image/" ++ pathName pr.1, pr.2))),
        { st with requests_cache := dictInsert st.requests_cache request_id entry })

/-- Scoring formula exactly as written in spec §4.2, as a real number:
`(exp(-cpf * (1 - dot/(‖a‖‖b‖))) + 1/(1 + epf * ‖a-b‖)) / 2`. -/
noncomputable def spec_score {n : ℕ} (a b : Vec n)
    (cosine_penalty_factor euclidean_penalty_factor : ℝ) : ℝ :=
  (Real.exp (-cosine_penalty_factor * (1 - npDot a b / (npNorm a * npNorm b))) +
    1 / (1 + euclidean_penalty_factor * npNorm (vsub a b))) / 2

theorem pdec_eq_true {p : Prop} : NpF.pdec p = true ↔ p := by
  simp [NpF.pdec]

theorem npDot_self_nonneg {n : ℕ} (a : Vec n) : 0 ≤ npDot a a :=
  Finset.sum_nonneg fun i _ => mul_self_nonneg (a i)

theorem npNorm_nonneg {n : ℕ} (a : Vec n) : 0 ≤ npNorm a :=
  Real.sqrt_nonneg _

theorem npNorm_ne_zero_of_ne {n : ℕ} (a : Vec n) (h : ∃ i, a i ≠ 0) :
    npNorm a ≠ 0 := by
  obtain ⟨i, hi⟩ := h
  have hpos : 0 < npDot a a := by
    refine Finset.sum_pos' (fun j _ => mul_self_nonneg (a j)) ⟨i, Finset.mem_univ i, ?_⟩
    exact mul_self_pos.mpr hi
  exact ne_of_gt (Real.sqrt_pos.mpr hpos)

theorem npDot_eq_zero_of_norm_eq_zero {n : ℕ} (a b : Vec n)
    (h : npNorm a = 0) : npDot a b = 0 := by
  have hself : npDot a a = 0 := by
    have hle : npDot a a ≤ 0 := Real.sqrt_eq_zero'.mp h
    exact le_antisymm hle (npDot_self_nonneg a)
  have hzero : ∀ i, a i = 0 := by
    intro i
    have hsum : ∑ j, a j * a j = 0 := hself
    have hall := (Finset.sum_eq_zero_iff_of_nonneg
      (fun j _ => mul_self_nonneg (a j))).mp hsum i (Finset.mem_univ i)
    exact mul_self_eq_zero.mp hall
  unfold npDot
  exact Finset.sum_eq_zero fun i _ => by rw [hzero i, zero_mul]

theorem npDot_le_norm_mul_norm {n : ℕ} (a b : Vec n) :
    npDot a b ≤ npNorm a * npNorm b := by
  have hcs : (∑ i, a i * b i) ^ 2 ≤ (∑ i, a i ^ 2) * ∑ i, b i ^ 2 :=
    Finset.sum_mul_sq_le_sq_mul_sq Finset.univ a b
  have ha : npDot a a = ∑ i, a i ^ 2 := by
    unfold npDot; exact Finset.sum_congr rfl fun i _ => (sq (a i)).symm ▸ (sq (a i)) ▸ rfl
  have hb : npDot b b = ∑ i, b i ^ 2 := by
    unfold npDot; exact Finset.sum_congr rfl fun i _ => (sq (b i)).symm ▸ (sq (b i)) ▸ rfl
  calc npDot a b ≤ |npDot a b| := le_abs_self _
    _ = Real.sqrt ((npDot a b) ^ 2) := (Real.sqrt_sq_eq_abs _).symm
    _ ≤ Real.sqrt ((∑ i, a i ^ 2) * ∑ i, b i ^ 2) := Real.sqrt_le_sqrt hcs
    _ = npNorm a * npNorm b := by
        rw [npNorm, npNorm, ha, hb,
          Real.sqrt_mul (Finset.sum_nonneg fun i _ => sq_nonneg (a i))]

theorem calc_similarity_eq_val {n : ℕ} (a b : Vec n) (cpf epf : ℝ)
    (ha : npNorm a ≠ 0) (hb : npNorm b ≠ 0) (hepf : 0 ≤ epf) :
    calc_similarity a b cpf epf = NpF.val (spec_score a b cpf epf) := by
  have hden : npNorm a * npNorm b ≠ 0 := mul_ne_zero ha hb
  have heden : (1 : ℝ) + epf * npNorm (vsub a b) ≠ 0 := by
    have : (0 : ℝ) < 1 + epf * npNorm (vsub a b) := by
      have := mul_nonneg hepf (npNorm_nonneg (vsub a b))
      linarith
    exact ne_of_gt this
  unfold calc_similarity spec_score
  simp only [NpF.div, NpF.sub, NpF.mul, NpF.exp, NpF.add, if_neg hden, if_neg heden,
    if_neg (two_ne_zero (α := ℝ))]

theorem calc_similarity_nan_of_left_zero {n : ℕ} (a b : Vec n) (cpf epf : ℝ)
    (ha : npNorm a = 0) : calc_similarity a b cpf epf = NpF.nan := by
  have hden : npNorm a * npNorm b = 0 := by rw [ha, zero_mul]
  unfold calc_similarity
  simp only [NpF.div, NpF.sub, NpF.mul, NpF.exp, NpF.add, if_pos hden]

theorem spec_score_pos {n : ℕ} (a b : Vec n) (cpf epf : ℝ)
    (hepf : 0 ≤ epf) : 0 < spec_score a b cpf epf := by
  unfold spec_score
  have h1 : 0 < Real.exp (-cpf * (1 - npDot a b / (npNorm a * npNorm b))) :=
    Real.exp_pos _
  have h2 : (0 : ℝ) < 1 + epf * npNorm (vsub a b) := by
    have := mul_nonneg hepf (npNorm_nonneg (vsub a b))
    linarith
  have h3 : 0 < 1 / (1 + epf * npNorm (vsub a b)) := by positivity
  linarith

theorem spec_score_le_one {n : ℕ} (a b : Vec n) (cpf epf : ℝ)
    (ha : npNorm a ≠ 0) (hb : npNorm b ≠ 0) (hcpf : 0 ≤ cpf) (hepf : 0 ≤ epf) :
    spec_score a b cpf epf ≤ 1 := by
  unfold spec_score
  have hnn : 0 < npNorm a * npNorm b :=
    lt_of_le_of_ne (mul_nonneg (npNorm_nonneg a) (npNorm_nonneg b))
      (Ne.symm (mul_ne_zero ha hb))
  have hcos : npDot a b / (npNorm a * npNorm b) ≤ 1 :=
    (div_le_one hnn).mpr (npDot_le_norm_mul_norm a b)
  have hcd : 0 ≤ 1 - npDot a b / (npNorm a * npNorm b) := by linarith
  have harg : -cpf * (1 - npDot a b / (npNorm a * npNorm b)) ≤ 0 := by
    have := mul_nonneg hcpf hcd
    nlinarith
  have h1 : Real.exp (-cpf * (1 - npDot a b / (npNorm a * npNorm b))) ≤ 1 :=
    Real.exp_le_one_iff.mpr harg
  have hed : (1 : ℝ) ≤ 1 + epf * npNorm (vsub a b) := by
    have := mul_nonneg hepf (npNorm_nonneg (vsub a b))
    linarith
  have h2 : 1 / (1 + epf * npNorm (vsub a b)) ≤ 1 := by
    have h0 : (0 : ℝ) < 1 + epf * npNorm (vsub a b) := lt_of_lt_of_le one_pos hed
    rw [div_le_one h0]; exact hed
  linarith

theorem pdec_eq_false {p : Prop} : NpF.pdec p = false ↔ ¬ p := by
  simp [NpF.pdec]

theorem minSkip_none (s : NpF) : minSkip none s = false := rfl

theorem minSkip_zero (s : NpF) : minSkip (some 0) s = false := by
  simp [minSkip, pdec_eq_false]

theorem minSkip_nan (o : Option ℝ) : minSkip o NpF.nan = false := by
  cases o with
  | none => rfl
  | some m => simp [minSkip, pdec_eq_false, NpF.lt]

theorem maxHit_none (s : NpF) : maxHit none s = false := rfl

theorem maxHit_zero (s : NpF) : maxHit (some 0) s = false := by
  simp [maxHit, pdec_eq_false]

theorem maxHit_nan (o : Option ℝ) : maxHit o NpF.nan = false := by
  cases o with
  | none => rfl
  | some m => simp [maxHit, pdec_eq_false, NpF.le]

theorem minSkip_some_eq_false {m : ℝ} (hm : m ≠ 0) (s : NpF) :
    minSkip (some m) s = false ↔ ¬ NpF.lt s (NpF.val m) := by
  simp [minSkip, pdec_eq_false, pdec_eq_true, hm]

theorem maxHit_some_eq_true {m : ℝ} (hm : m ≠ 0) (s : NpF) :
    maxHit (some m) s = true ↔ NpF.le (NpF.val m) s := by
  simp [maxHit, pdec_eq_true, hm]

theorem maxHit_some_eq_false {m : ℝ} (hm : m ≠ 0) (s : NpF) :
    maxHit (some m) s = false ↔ ¬ NpF.le (NpF.val m) s := by
  simp [maxHit, pdec_eq_false, pdec_eq_true, hm]

theorem scanLoop_early {n : ℕ} (ref : Vec n) (min_s max_s : Option ℝ)
    (cpf epf : ℝ) (p : String) (v : Vec n) :
    ∀ (pre : List (String × Vec n)) (post : List (String × Vec n))
      (acc : List (String × NpF)),
      (∀ q w, (q, w) ∈ pre →
        maxHit max_s (calc_similarity ref w cpf epf) = false) →
      minSkip min_s (calc_similarity ref v cpf epf) = false →
      maxHit max_s (calc_similarity ref v cpf epf) = true →
      scanLoop ref min_s max_s cpf epf acc (pre ++ (p, v) :: post)
        = Sum.inl [(p, calc_similarity ref v cpf epf)]
  | [], post, acc, _, hv1, hv2 => by
    simp [scanLoop, hv1, hv2]
  | (q, w) :: pre, post, acc, hpre, hv1, hv2 => by
    have hqw := hpre q w (List.mem_cons_self _ _)
    have hrest : ∀ q' w', (q', w') ∈ pre →
        maxHit max_s (calc_similarity ref w' cpf epf) = false :=
      fun q' w' h => hpre q' w' (List.mem_cons_of_mem _ h)
    rw [List.cons_append]
    cases hskip : minSkip min_s (calc_similarity ref w cpf epf) with
    | true =>
      simp only [scanLoop, hskip, if_true]
      exact scanLoop_early ref min_s max_s cpf epf p v pre post acc hrest hv1 hv2
    | false =>
      simp only [scanLoop, hskip, hqw, Bool.false_eq_true, if_false]
      exact scanLoop_early ref min_s max_s cpf epf p v pre post _ hrest hv1 hv2

theorem scanLoop_no_hit {n : ℕ} (ref : Vec n) (min_s max_s : Option ℝ)
    (cpf epf : ℝ) :
    ∀ (l : List (String × Vec n)) (acc : List (String × NpF)),
      (∀ pv ∈ l, maxHit max_s (calc_similarity ref pv.2 cpf epf) = false) →
      scanLoop ref min_s max_s cpf epf acc l = Sum.inr (acc ++
        l.filterMap (fun pv =>
          if minSkip min_s (calc_similarity ref pv.2 cpf epf) then none
          else some (pv.1, calc_similarity ref pv.2 cpf epf)))
  | [], acc, _ => by simp [scanLoop]
  | (p, v) :: rest, acc, hmax => by
    have hp := hmax (p, v) (List.mem_cons_self _ _)
    have hrest : ∀ pv ∈ rest, maxHit max_s (calc_similarity ref pv.2 cpf epf) = false :=
      fun pv h => hmax pv (List.mem_cons_of_mem _ h)
    cases hskip : minSkip min_s (calc_similarity ref v cpf epf) with
    | true =>
      simp only [scanLoop, hskip, if_true, List.filterMap_cons, hskip]
      exact scanLoop_no_hit ref min_s max_s cpf epf rest acc hrest
    | false =>
      simp only [scanLoop, hskip, hp, Bool.false_eq_true, if_false,
        List.filterMap_cons]
      rw [scanLoop_no_hit ref min_s max_s cpf epf rest _ hrest]
      simp

theorem scanLoop_mem_invariant {n : ℕ} (ref : Vec n) (min_s max_s : Option ℝ)
    (cpf epf : ℝ) :
    ∀ (l : List (String × Vec n)) (acc : List (String × NpF)),
      (∀ pr ∈ acc, minSkip min_s pr.2 = false) →
      ∀ pr ∈ Sum.elim id id (scanLoop ref min_s max_s cpf epf acc l),
        minSkip min_s pr.2 = false
  | [], acc, hacc => by simpa [scanLoop] using hacc
  | (p, v) :: rest, acc, hacc => by
    cases hskip : minSkip min_s (calc_similarity ref v cpf epf) with
    | true =>
      simp only [scanLoop, hskip, if_true]
      exact scanLoop_mem_invariant ref min_s max_s cpf epf rest acc hacc
    | false =>
      cases hhit : maxHit max_s (calc_similarity ref v cpf epf) with
      | true =>
        simp only [scanLoop, hskip, hhit, Bool.false_eq_true, if_false, if_true]
        intro pr hpr
        have hpr2 : pr = (p, calc_similarity ref v cpf epf) := by
          simpa using hpr
        rw [hpr2]
        exact hskip
      | false =>
        simp only [scanLoop, hskip, hhit, Bool.false_eq_true, if_false]
        refine scanLoop_mem_invariant ref min_s max_s cpf epf rest _ ?_
        intro pr hpr
        rcases List.mem_append.mp hpr with h | h
        · exact hacc pr h
        · simp only [List.mem_singleton] at h
          rw [h]
          exact hskip

theorem calc_similarities_mem_min {n : ℕ} (ref : Vec n)
    (vectors : List (String × Vec n)) (min_s max_s : Option ℝ) (cpf epf : ℝ) :
    ∀ pr ∈ calc_similarities ref vectors min_s max_s cpf epf,
      minSkip min_s pr.2 = false := by
  intro pr hpr
  unfold calc_similarities at hpr
  have hinv := scanLoop_mem_invariant ref min_s max_s cpf epf vectors []
    (by intro pr h; cases h)
  cases hscan : scanLoop ref min_s max_s cpf epf [] vectors with
  | inl r =>
    rw [hscan] at hpr hinv
    exact hinv pr (by simpa using hpr)
  | inr r =>
    rw [hscan] at hpr hinv
    have hmem : pr ∈ r := by
      simp only [sortDesc] at hpr
      exact List.mem_mergeSort.mp hpr
    exact hinv pr (by simpa using hmem)

/-- Concrete 2-d unit vector `(1, 0)` used by witnesses. -/
def vx : Vec 2 := fun i => if i.1 = 0 then 1 else 0

/-- Concrete 2-d unit vector `(0, 1)` used by witnesses. -/
def vy : Vec 2 := fun i => if i.1 = 0 then 0 else 1

theorem npDot_vx_vx : npDot vx vx = 1 := by
  norm_num [npDot, vx, Fin.sum_univ_two]

theorem npDot_vx_vy : npDot vx vy = 0 := by
  norm_num [npDot, vx, vy, Fin.sum_univ_two]

theorem npDot_vy_vy : npDot vy vy = 1 := by
  norm_num [npDot, vy, Fin.sum_univ_two]

theorem npNorm_vx : npNorm vx = 1 := by
  rw [npNorm, npDot_vx_vx, Real.sqrt_one]

theorem npNorm_vy : npNorm vy = 1 := by
  rw [npNorm, npDot_vy_vy, Real.sqrt_one]

theorem npNorm_vsub_vx_vx : npNorm (vsub vx vx) = 0 := by
  have h : npDot (vsub vx vx) (vsub vx vx) = 0 := by
    norm_num [npDot, vsub, Fin.sum_univ_two]
  rw [npNorm, h, Real.sqrt_zero]

theorem spec_score_vx_vx : spec_score vx vx 4 0.2 = 1 := by
  unfold spec_score
  rw [npDot_vx_vx, npNorm_vx, npNorm_vsub_vx_vx]
  norm_num [Real.exp_zero]

theorem calc_vx_vx : calc_similarity vx vx 4 0.2 = NpF.val 1 := by
  rw [calc_similarity_eq_val vx vx 4 0.2 (by rw [npNorm_vx]; norm_num)
    (by rw [npNorm_vx]; norm_num) (by norm_num), spec_score_vx_vx]

theorem calc_vx_vy : calc_similarity vx vy 4 0.2 = NpF.val (spec_score vx vy 4 0.2) :=
  calc_similarity_eq_val vx vy 4 0.2 (by rw [npNorm_vx]; norm_num)
    (by rw [npNorm_vy]; norm_num) (by norm_num)

theorem spec_score_vx_vy_eq : spec_score vx vy 4 0.2 =
    (Real.exp (-4) + 1 / (1 + 0.2 * npNorm (vsub vx vy))) / 2 := by
  unfold spec_score
  rw [npDot_vx_vy, npNorm_vx, npNorm_vy]
  norm_num

theorem spec_score_vx_vy_lt : spec_score vx vy 4 0.2 < 0.9 := by
  rw [spec_score_vx_vy_eq]
  have hexp : Real.exp (-4 : ℝ) < 1 / 2 := by
    have h1 : Real.exp (-4 : ℝ) ≤ Real.exp (-1 : ℝ) := Real.exp_le_exp.mpr (by norm_num)
    have h2 : Real.exp (-1 : ℝ) = (Real.exp 1)⁻¹ := Real.exp_neg 1
    have h3 : (2 : ℝ) < Real.exp 1 := by
      have := Real.exp_one_gt_d9
      linarith
    have h4 : (Real.exp 1)⁻¹ < (2 : ℝ)⁻¹ := by
      exact inv_strictAnti₀ (by norm_num) h3
    calc Real.exp (-4 : ℝ) ≤ (Real.exp 1)⁻¹ := h2 ▸ h1
      _ < (2 : ℝ)⁻¹ := h4
      _ ≤ 1 / 2 := by norm_num
  have hden : (0 : ℝ) ≤ 0.2 * npNorm (vsub vx vy) :=
    mul_nonneg (by norm_num) (npNorm_nonneg _)
  have hfrac : 1 / (1 + 0.2 * npNorm (vsub vx vy)) ≤ 1 := by
    rw [div_le_one (by linarith)]
    linarith
  linarith

/-- Claim C2: for non-zero vectors `a`, `b`, `calc_similarity` returns
exactly the §4.2 formula
`(exp(-cpf * (1 - dot/(‖a‖‖b‖))) + 1/(1 + epf * ‖a-b‖)) / 2`
(exact real equality, which is stronger than the claimed `1e-6`
tolerance), and the value lies in `(0, 1]`. -/
theorem calc_similarity_matches_spec {n : ℕ} (a b : Vec n) (cpf epf : ℝ)
    (ha : ∃ i, a i ≠ 0) (hb : ∃ i, b i ≠ 0) (hcpf : 0 ≤ cpf) (hepf : 0 ≤ epf) :
    calc_similarity a b cpf epf = NpF.val (spec_score a b cpf epf) ∧
      0 < spec_score a b cpf epf ∧ spec_score a b cpf epf ≤ 1 :=
  have ha' := npNorm_ne_zero_of_ne a ha
  have hb' := npNorm_ne_zero_of_ne b hb
  ⟨calc_similarity_eq_val a b cpf epf ha' hb' hepf,
    spec_score_pos a b cpf epf hepf,
    spec_score_le_one a b cpf epf ha' hb' hcpf hepf⟩

/-- Witness for C2 at the concrete vectors `(1,0)`, `(0,1)` and the
`calc_similarity` defaults `cpf = 4`, `epf = 0.1`. -/
theorem calc_similarity_matches_spec_witness :
    calc_similarity vx vy 4 0.1 = NpF.val (spec_score vx vy 4 0.1) ∧
      0 < spec_score vx vy 4 0.1 ∧ spec_score vx vy 4 0.1 ≤ 1 :=
  calc_similarity_matches_spec vx vy 4 0.1
    ⟨0, by norm_num [vx]⟩ ⟨1, by norm_num [vy]⟩ (by norm_num) (by norm_num)

/-- Claim C1: with truthy thresholds, the first entry of the insertion
order whose score passes the min filter and reaches `max_similarity`
makes the scan return exactly that single entry, discarding everything
accumulated before it and everything after it; and no entry whose score
is below `min_similarity` ever appears in any result. -/
theorem rank_early_exit {n : ℕ} (ref : Vec n)
    (pre post : List (String × Vec n)) (p : String) (v : Vec n)
    (m M cpf epf : ℝ) (hm : m ≠ 0) (hM : M ≠ 0)
    (hpre : ∀ q w, (q, w) ∈ pre →
      ¬ NpF.le (NpF.val M) (calc_similarity ref w cpf epf))
    (hv : NpF.le (NpF.val M) (calc_similarity ref v cpf epf))
    (hvm : ¬ NpF.lt (calc_similarity ref v cpf epf) (NpF.val m)) :
    calc_similarities ref (pre ++ (p, v) :: post) (some m) (some M) cpf epf
      = [(p, calc_similarity ref v cpf epf)] ∧
    ∀ (vectors : List (String × Vec n)) pr,
      pr ∈ calc_similarities ref vectors (some m) (some M) cpf epf →
      ¬ NpF.lt pr.2 (NpF.val m) := by
  constructor
  · unfold calc_similarities
    rw [scanLoop_early ref (some m) (some M) cpf epf p v pre post []
      (fun q w h => (maxHit_some_eq_false hM _).mpr (hpre q w h))
      ((minSkip_some_eq_false hm _).mpr hvm)
      ((maxHit_some_eq_true hM _).mpr hv)]
  · intro vectors pr hpr
    exact (minSkip_some_eq_false hm _).mp
      (calc_similarities_mem_min ref vectors (some m) (some M) cpf epf pr hpr)

/-- Witness for C1: query `(1,0)` against three published vectors where
the second scores `1 ≥ 0.9` and the third (identical to the second)
would score just as high; only the second is returned. -/
theorem rank_early_exit_witness :
    calc_similarities vx [("a", vy), ("b", vx), ("c", vx)]
      (some 0.2) (some 0.9) 4 0.2 = [("b", NpF.val 1)] ∧
    ¬ NpF.lt (NpF.val 1) (NpF.val 0.2) := by
  have h := rank_early_exit vx [("a", vy)] [("c", vx)] ("b") vx 0.2 0.9 4 0.2
    (by norm_num) (by norm_num)
    (by
      intro q w hw
      have hw2 : w = vy := by
        simp only [List.mem_singleton, Prod.mk.injEq] at hw
        exact hw.2
      rw [hw2, calc_vx_vy]
      simp only [NpF.le]
      intro hle
      linarith [spec_score_vx_vy_lt])
    (by rw [calc_vx_vx]; simp only [NpF.le]; norm_num)
    (by rw [calc_vx_vx]; simp only [NpF.lt]; norm_num)
  have h1 : calc_similarities vx [("a", vy), ("b", vx), ("c", vx)]
      (some 0.2) (some 0.9) 4 0.2 = [("b", NpF.val 1)] :=
    h.1.trans (by rw [calc_vx_vx])
  exact ⟨h1, h.2 [("a", vy), ("b", vx), ("c", vx)] ("b", NpF.val 1)
    (by rw [h1]; exact List.mem_singleton.mpr rfl)⟩

/-- Concrete all-zero 1-d vector used by the zero-query scenario. -/
def zvec : Vec 1 := fun _ => 0

/-- Concrete all-one 1-d vector used by the zero-query scenario. -/
def wvec : Vec 1 := fun _ => 1

theorem npNorm_zvec : npNorm zvec = 0 := by
  have h : npDot zvec zvec = 0 := by norm_num [npDot, zvec, Fin.sum_univ_one]
  rw [npNorm, h, Real.sqrt_zero]

/-- Claim C3 (amended): a zero-norm query raises no error at all — the
cosine division produces NaN, the NaN fails both threshold comparisons,
so every published entry is accumulated with a NaN score and returned
in the 200 payload.  There is no `InvalidVector` anywhere in the
code. -/
theorem scanLoop_all_nan {n : ℕ} (ref : Vec n) (min_s max_s : Option ℝ)
    (cpf epf : ℝ) (h : ∀ w : Vec n, calc_similarity ref w cpf epf = NpF.nan) :
    ∀ (l : List (String × Vec n)) (acc : List (String × NpF)),
      scanLoop ref min_s max_s cpf epf acc l
        = Sum.inr (acc ++ l.map (fun pv => (pv.1, NpF.nan)))
  | [], acc => by simp [scanLoop]
  | (p, v) :: rest, acc => by
    simp only [scanLoop, h v, minSkip_nan, maxHit_nan, Bool.false_eq_true,
      if_false]
    rw [scanLoop_all_nan ref min_s max_s cpf epf h rest (acc ++ [(p, NpF.nan)])]
    simp

theorem zero_query_propagates_nan {n : ℕ} (ref : Vec n)
    (vectors : List (String × Vec n)) (min_s max_s : Option ℝ)
    (cpf epf : ℝ) (h : npNorm ref = 0) :
    calc_similarities ref vectors min_s max_s cpf epf
      = vectors.map (fun pv => (pv.1, NpF.nan)) := by
  have hnan : ∀ w : Vec n, calc_similarity ref w cpf epf = NpF.nan :=
    fun w => calc_similarity_nan_of_left_zero ref w cpf epf h
  unfold calc_similarities
  rw [scanLoop_all_nan ref min_s max_s cpf epf hnan vectors [], List.nil_append]
  show (vectors.map (fun pv => (pv.1, NpF.nan))).mergeSort
    (fun a b => NpF.keyLe b.2 a.2) = vectors.map (fun pv => (pv.1, NpF.nan))
  rw [List.mergeSort_of_sorted (List.pairwise_of_forall_mem_list ?_)]
  intro a _ b hb
  obtain ⟨pb, _, hpb⟩ := List.mem_map.mp hb
  have h2 : b.2 = NpF.nan := by rw [← hpb]
  rw [NpF.keyLe, h2]
  exact pdec_eq_true.mpr trivial

/-- Witness for the amended C3 at the concrete zero query `(0)` against
one published vector `(1)`. -/
theorem zero_query_propagates_nan_witness :
    calc_similarities zvec [("a", wvec)] (some 0.2) (some 0.9) 4 0.2
      = [("a", NpF.nan)] :=
  (zero_query_propagates_nan zvec [("a", wvec)] (some 0.2) (some 0.9) 4 0.2
    npNorm_zvec).trans (by simp)

/-- Counterexample to C3 as stated: a query whose extracted features
are all zeros does not fail with any error — `find_image` answers 200
with the published entry carried at a NaN score.  (No `InvalidVector`
exists in the code; numpy only warns on `0.0/0.0` and yields NaN, and
NaN comparisons being false the entry passes both guards.) -/
theorem zero_query_counterexample :
    (find_image (⟨[("IMAGES/w.jpg", wvec)], [], []⟩ : ServerState 1)
      ("http://h/") ("http://x/q.png") 5 none ("rid") 0
      (fun _ => some (37 : ℕ)) (fun _ => zvec) (fun _ => ("qhash"))
      ("IMAGES")).1
      = FindOutcome.ok ("rid") [("http://h/image/w.jpg", NpF.nan)] := by
  have hnan : ∀ w : Vec 1, calc_similarity zvec w 4 0.2 = NpF.nan :=
    fun w => calc_similarity_nan_of_left_zero zvec w 4 0.2 npNorm_zvec
  have hcs : calc_similarities zvec [("IMAGES/w.jpg", wvec)]
      (some 0.2) none 4 0.2 = [("IMAGES/w.jpg", NpF.nan)] := by
    unfold calc_similarities
    rw [scanLoop_all_nan zvec (some 0.2) none 4 0.2 hnan _ []]
    simp [sortDesc]
  unfold find_image
  rw [show extract_name_extension ("http://x/q.png") ("http://h/") = none
    from rfl]
  simp only [hcs]
  rfl

/-- Concrete cache entry with both lifecycle flags set, created at time
zero. -/
def entryBoth : RequestCacheEntry 1 :=
  ⟨0, 37, ("h"), fun _ => 0, true, true, none⟩

/-- Counterexample to C4 as stated: an entry whose `saved` and
`tweeted` flags are both true and whose age (10s) is well within the
TTL (180s) is still present after the sweep — the sweep never looks at
the flags. -/
theorem sweep_keeps_dual_flag_counterexample :
    entryBoth.saved = true ∧ entryBoth.tweeted = true ∧
    (10 : ℚ) - entryBoth.created ≤ 180 ∧
    (("r1"), entryBoth) ∈ cleanup_expired_requests [(("r1"), entryBoth)] 10 180 := by
  refine ⟨rfl, rfl, by norm_num [entryBoth], ?_⟩
  unfold cleanup_expired_requests
  refine List.mem_filter.mpr ⟨List.mem_singleton.mpr rfl, ?_⟩
  simp only [decide_eq_true_eq, entryBoth]
  norm_num

/-- Claim C4 (amended): the sweep ignores the lifecycle flags entirely —
an entry with `saved` and `tweeted` both true but age within the TTL is
retained by the very next sweep (dual-flag entries are only removed
inline by `save_image`, or once their age exceeds the TTL). -/
theorem sweep_ignores_flags {n : ℕ}
    (cache : List (String × RequestCacheEntry n)) (now ttl : ℚ)
    (k : String) (e : RequestCacheEntry n) (hmem : (k, e) ∈ cache)
    (_hsaved : e.saved = true) (_htw : e.tweeted = true)
    (hage : now - e.created ≤ ttl) :
    (k, e) ∈ cleanup_expired_requests cache now ttl := by
  unfold cleanup_expired_requests
  refine List.mem_filter.mpr ⟨hmem, ?_⟩
  simp only [decide_eq_true_eq]
  exact not_lt.mpr hage

/-- Witness for the amended C4: the dual-flag entry of age 10s survives
a sweep with TTL 180s. -/
theorem sweep_ignores_flags_witness :
    (("r1"), entryBoth) ∈ cleanup_expired_requests [(("r1"), entryBoth)] 10 180 :=
  sweep_ignores_flags [(("r1"), entryBoth)] 10 180 ("r1") entryBoth
    (List.mem_singleton.mpr rfl) rfl rfl (by norm_num [entryBoth])

/-- Claim C5: a sweep removes exactly the entries whose age strictly
exceeds the TTL, and retains entries at or below the TTL, regardless of
flag state (no flag hypothesis appears). -/
theorem sweep_ttl {n : ℕ} (cache : List (String × RequestCacheEntry n))
    (now ttl : ℚ) (k : String) (e : RequestCacheEntry n)
    (hmem : (k, e) ∈ cache) :
    (now - e.created ≤ ttl → (k, e) ∈ cleanup_expired_requests cache now ttl) ∧
    (now - e.created > ttl → (k, e) ∉ cleanup_expired_requests cache now ttl) := by
  constructor
  · intro h
    unfold cleanup_expired_requests
    refine List.mem_filter.mpr ⟨hmem, ?_⟩
    simp only [decide_eq_true_eq]
    exact not_lt.mpr h
  · intro h hmem2
    have h2 := (List.mem_filter.mp hmem2).2
    simp only [decide_eq_true_eq] at h2
    exact h2 h

/-- Witness for C5: an entry created at `t0 = 0` with TTL 180s is
present after a sweep at `t0 + 179s` and absent after a sweep at
`t0 + 181s`. -/
theorem sweep_ttl_witness :
    (("r1"), entryBoth) ∈ cleanup_expired_requests [(("r1"), entryBoth)] 179 180 ∧
    (("r1"), entryBoth) ∉ cleanup_expired_requests [(("r1"), entryBoth)] 181 180 :=
  ⟨(sweep_ttl [(("r1"), entryBoth)] 179 180 ("r1") entryBoth
      (List.mem_singleton.mpr rfl)).1 (by norm_num [entryBoth]),
    (sweep_ttl [(("r1"), entryBoth)] 181 180 ("r1") entryBoth
      (List.mem_singleton.mpr rfl)).2 (by norm_num [entryBoth])⟩

theorem save_image_conflict_of {n : ℕ} (st : ServerState n)
    (images_dir cache_dir base_url rid : String) (c : RequestCacheEntry n)
    (hget : dictGet rid st.requests_cache = some c)
    (h1 : save_path images_dir c.hash ∈ st.files)
    (h2 : features_save_path cache_dir c.hash ∈ st.files) :
    (save_image st images_dir cache_dir base_url rid).1
      = SaveResult.conflict (base_url ++ "image/" ++ c.hash ++ ".jpeg") := by
  unfold save_image
  rw [hget]
  dsimp only
  rw [if_pos ⟨h1, h2⟩]

theorem save_image_ok_parts {n : ℕ} (st : ServerState n)
    (images_dir cache_dir base_url rid : String) (c : RequestCacheEntry n)
    (hget : dictGet rid st.requests_cache = some c)
    (hnc : ¬ (save_path images_dir c.hash ∈ st.files ∧
      features_save_path cache_dir c.hash ∈ st.files)) :
    (save_image st images_dir cache_dir base_url rid).1
        = SaveResult.ok (base_url ++ "image/" ++ c.hash ++ ".jpeg") ∧
    (save_image st images_dir cache_dir base_url rid).2.files
        = features_save_path cache_dir c.hash ::
          save_path images_dir c.hash :: st.files := by
  unfold save_image
  rw [hget]
  dsimp only
  rw [if_neg hnc]
  exact ⟨rfl, rfl⟩

/-- Claim C6: `save_image` fails with `Conflict` exactly when both the
image file and the fingerprint file already exist at the paths derived
from the entry's content hash; and committing the same identity twice
(two cache entries carrying the same hash) succeeds the first time and
conflicts the second time. -/
theorem save_conflict {n : ℕ} (st : ServerState n)
    (images_dir cache_dir base_url : String) :
    (∀ (rid : String) (c : RequestCacheEntry n),
      dictGet rid st.requests_cache = some c →
      ((save_image st images_dir cache_dir base_url rid).1
          = SaveResult.conflict (base_url ++ "image/" ++ c.hash ++ ".jpeg")
        ↔ save_path images_dir c.hash ∈ st.files ∧
          features_save_path cache_dir c.hash ∈ st.files)) ∧
    (∀ (rid1 : String) (c1 : RequestCacheEntry n),
      dictGet rid1 st.requests_cache = some c1 →
      ¬ (save_path images_dir c1.hash ∈ st.files ∧
        features_save_path cache_dir c1.hash ∈ st.files) →
      (save_image st images_dir cache_dir base_url rid1).1
          = SaveResult.ok (base_url ++ "image/" ++ c1.hash ++ ".jpeg") ∧
      ∀ (rid2 : String) (c2 : RequestCacheEntry n),
        dictGet rid2
          (save_image st images_dir cache_dir base_url rid1).2.requests_cache
          = some c2 →
        c2.hash = c1.hash →
        (save_image (save_image st images_dir cache_dir base_url rid1).2
            images_dir cache_dir base_url rid2).1
          = SaveResult.conflict (base_url ++ "image/" ++ c2.hash ++ ".jpeg")) := by
  constructor
  · intro rid c hget
    by_cases hc : save_path images_dir c.hash ∈ st.files ∧
        features_save_path cache_dir c.hash ∈ st.files
    · exact iff_of_true (save_image_conflict_of st images_dir cache_dir
        base_url rid c hget hc.1 hc.2) hc
    · refine iff_of_false ?_ hc
      rw [(save_image_ok_parts st images_dir cache_dir base_url rid c hget hc).1]
      intro h
      cases h
  · intro rid1 c1 hget1 hnc
    have hok := save_image_ok_parts st images_dir cache_dir base_url rid1 c1
      hget1 hnc
    refine ⟨hok.1, ?_⟩
    intro rid2 c2 hget2 hhash
    refine save_image_conflict_of _ images_dir cache_dir base_url rid2 c2
      hget2 ?_ ?_
    · rw [hok.2, hhash]
      exact List.mem_cons_of_mem _ (List.mem_cons_self _ _)
    · rw [hok.2, hhash]
      exact List.mem_cons_self _ _

/-- Concrete cache entry with hash `h`, both flags clear. -/
def entryH1 : RequestCacheEntry 1 := ⟨0, 37, ("h"), fun _ => 0, false, false, none⟩

/-- Second concrete cache entry carrying the same hash `h`. -/
def entryH2 : RequestCacheEntry 1 := ⟨1, 38, ("h"), fun _ => 0, false, false, none⟩

/-- Server state with two pending requests for the same identity and an
empty disk. -/
def stC6 : ServerState 1 := ⟨[], [(("r1"), entryH1), (("r2"), entryH2)], []⟩

/-- Witness for C6: on an empty disk, committing `r1` succeeds and a
subsequent commit of `r2` (same content hash) conflicts. -/
theorem save_conflict_witness :
    ((save_image stC6 ("IMAGES") ("CACHE") ("http://h/") ("r1")).1
        = SaveResult.conflict ("http://h/" ++ "image/" ++ entryH1.hash ++ ".jpeg")
      ↔ save_path ("IMAGES") entryH1.hash ∈ stC6.files ∧
        features_save_path ("CACHE") entryH1.hash ∈ stC6.files) ∧
    (save_image stC6 ("IMAGES") ("CACHE") ("http://h/") ("r1")).1
        = SaveResult.ok ("http://h/" ++ "image/" ++ entryH1.hash ++ ".jpeg") ∧
    (save_image (save_image stC6 ("IMAGES") ("CACHE") ("http://h/") ("r1")).2
        ("IMAGES") ("CACHE") ("http://h/") ("r2")).1
        = SaveResult.conflict ("http://h/" ++ "image/" ++ entryH2.hash ++ ".jpeg") := by
  have h0 := (save_conflict stC6 ("IMAGES") ("CACHE") ("http://h/")).1
    ("r1") entryH1 rfl
  have h := (save_conflict stC6 ("IMAGES") ("CACHE") ("http://h/")).2
    ("r1") entryH1 rfl (by simp [stC6])
  exact ⟨h0, h.1, h.2 ("r2") entryH2 rfl rfl⟩

theorem dictGet_dictInsert {α : Type} (c : List (String × α)) (k k' : String)
    (v : α) :
    dictGet k (dictInsert c k' v) = if k' = k then some v else dictGet k c := by
  induction c with
  | nil => simp [dictGet, dictInsert]
  | cons kv rest ih =>
    obtain ⟨k0, v0⟩ := kv
    by_cases h0 : k0 = k'
    · subst h0
      simp only [dictInsert, if_pos rfl, dictGet]
      by_cases hk : k0 = k
      · simp [hk]
      · simp [hk]
    · simp only [dictInsert, if_neg h0, dictGet]
      by_cases hk : k0 = k
      · subst hk
        have : ¬ k' = k0 := fun h => h0 h.symm
        simp [this]
      · simp [hk, ih]

theorem dictGet_foldl_insert_not_mem {n : ℕ} :
    ∀ (s : List (String × Vec n)) (c : List (String × Vec n)) (k : String),
      k ∉ s.map Prod.fst →
      dictGet k (s.foldl (fun c kv => dictInsert c kv.1 kv.2) c) = dictGet k c
  | [], c, k, _ => rfl
  | (k0, v0) :: rest, c, k, hk => by
    have hne : ¬ k0 = k := by
      intro h
      exact hk (by simp [h])
    have hrest : k ∉ rest.map Prod.fst := by
      intro h
      exact hk (by simp [h])
    simp only [List.foldl_cons]
    rw [dictGet_foldl_insert_not_mem rest _ k hrest,
      dictGet_dictInsert c k k0 v0, if_neg hne]

theorem dictGet_foldl_insert_mem {n : ℕ} :
    ∀ (s : List (String × Vec n)) (c : List (String × Vec n)) (k : String)
      (v : Vec n),
      (∀ v', (k, v') ∈ s → v' = v) → (k, v) ∈ s →
      dictGet k (s.foldl (fun c kv => dictInsert c kv.1 kv.2) c) = some v
  | [], _, _, _, _, hmem => absurd hmem (List.not_mem_nil _)
  | (k0, v0) :: rest, c, k, v, hval, hmem => by
    simp only [List.foldl_cons]
    by_cases hk : k ∈ rest.map Prod.fst
    · obtain ⟨⟨k1, v1⟩, hin, hk1⟩ := List.mem_map.mp hk
      simp only at hk1
      subst hk1
      have hv1 : v1 = v := hval v1 (List.mem_cons_of_mem _ hin)
      exact dictGet_foldl_insert_mem rest _ k1 v
        (fun v' h => hval v' (List.mem_cons_of_mem _ h)) (hv1 ▸ hin)
    · have hhead : (k, v) = (k0, v0) := by
        rcases List.mem_cons.mp hmem with h | h
        · exact h
        · exact absurd (List.mem_map.mpr ⟨(k, v), h, rfl⟩) hk
      have hk0 : k = k0 := congrArg Prod.fst hhead
      have hv0 : v = v0 := congrArg Prod.snd hhead
      rw [dictGet_foldl_insert_not_mem rest _ k hk,
        dictGet_dictInsert c k k0 v0, if_pos hk0.symm, hv0]

/-- The value `load_features` associates to an image path: the cached
vector when a cache file exists, the freshly extracted one
otherwise. -/
def cachedValue {n : ℕ} (cached : List (String × Vec n)) (ef : String → Vec n)
    (p : String) : Vec n :=
  match dictGet p cached with
  | some w => w
  | none => ef p

theorem lfGo_features_eq {n : ℕ} (cached : List (String × Vec n))
    (ef : String → Vec n) (sc : Bool) :
    ∀ files, (lfGo cached ef true sc files).features
      = files.map (fun p => (p, cachedValue cached ef p))
  | [] => rfl
  | path :: rest => by
    simp only [lfGo, if_true, List.map_cons]
    cases hg : dictGet path cached with
    | some w =>
      simp only [cachedValue, hg]
      exact congrArg _ (lfGo_features_eq cached ef sc rest)
    | none =>
      simp only [cachedValue, hg]
      exact congrArg _ (lfGo_features_eq cached ef sc rest)

theorem lfGo_saved_sound {n : ℕ} (cached : List (String × Vec n))
    (ef : String → Vec n) :
    ∀ files (pv : String × Vec n), pv ∈ (lfGo cached ef true true files).saved →
      dictGet pv.1 cached = none ∧ pv.2 = ef pv.1
  | [], _, hmem => absurd hmem (List.not_mem_nil _)
  | path :: rest, pv, hmem => by
    simp only [lfGo, if_true] at hmem
    cases hg : dictGet path cached with
    | some w =>
      rw [hg] at hmem
      exact lfGo_saved_sound cached ef rest pv hmem
    | none =>
      rw [hg] at hmem
      simp only [if_true] at hmem
      rcases List.mem_cons.mp hmem with h | h
      · rw [h]
        exact ⟨hg, rfl⟩
      · exact lfGo_saved_sound cached ef rest pv h

theorem lfGo_saved_complete {n : ℕ} (cached : List (String × Vec n))
    (ef : String → Vec n) :
    ∀ files (p : String), p ∈ files → dictGet p cached = none →
      (p, ef p) ∈ (lfGo cached ef true true files).saved
  | [], _, hmem, _ => absurd hmem (List.not_mem_nil _)
  | path :: rest, p, hmem, hg => by
    simp only [lfGo, if_true]
    rcases List.mem_cons.mp hmem with h | h
    · subst h
      rw [hg]
      simp only [if_true]
      exact List.mem_cons_self _ _
    · cases hg2 : dictGet path cached with
      | some w =>
        exact lfGo_saved_complete cached ef rest p h hg
      | none =>
        simp only [if_true]
        exact List.mem_cons_of_mem _ (lfGo_saved_complete cached ef rest p h hg)

theorem lfGo_all_hits {n : ℕ} (c1 : List (String × Vec n))
    (ef g : String → Vec n) (sc : Bool) :
    ∀ files, (∀ p ∈ files, dictGet p c1 = some (g p)) →
      lfGo c1 ef true sc files = ⟨files.map (fun p => (p, g p)), [], []⟩
  | [], _ => rfl
  | path :: rest, hall => by
    simp only [lfGo, if_true, hall path (List.mem_cons_self _ _),
      lfGo_all_hits c1 ef g sc rest
        (fun p hp => hall p (List.mem_cons_of_mem _ hp)),
      List.map_cons]

/-- Claim C7: `load_features` is idempotent — a second run over the same
image listing, against the cache directory produced by the first run,
returns the same identity-to-vector mapping and performs zero
`extract_func` invocations. -/
theorem load_features_idempotent {n : ℕ} (files : List String)
    (cached : List (String × Vec n)) (ef : String → Vec n) :
    (load_features files
        (cacheAfter cached (load_features files cached ef true true))
        ef true true).features
      = (load_features files cached ef true true).features ∧
    (load_features files
        (cacheAfter cached (load_features files cached ef true true))
        ef true true).extracted = [] := by
  have key : ∀ p ∈ files,
      dictGet p (cacheAfter cached (load_features files cached ef true true))
        = some (cachedValue cached ef p) := by
    intro p _
    unfold cacheAfter
    cases hg : dictGet p cached with
    | some w =>
      have hnot : p ∉ (load_features files cached ef true true).saved.map
          Prod.fst := by
        intro hmem
        obtain ⟨pv, hin, hfst⟩ := List.mem_map.mp hmem
        have := (lfGo_saved_sound cached ef files pv hin).1
        rw [hfst] at this
        rw [this] at hg
        cases hg
      rw [dictGet_foldl_insert_not_mem _ _ _ hnot, hg]
      simp [cachedValue, hg]
    | none =>
      have hval : ∀ v', (p, v') ∈ (load_features files cached ef true true).saved
          → v' = ef p := by
        intro v' hin
        exact (lfGo_saved_sound cached ef files (p, v') hin).2
      have hmem : (p, ef p) ∈ (load_features files cached ef true true).saved := by
        unfold load_features
        exact lfGo_saved_complete cached ef files p (by assumption) hg
      rw [dictGet_foldl_insert_mem _ _ _ _ hval hmem]
      simp [cachedValue, hg]
  have h2 := lfGo_all_hits
    (cacheAfter cached (load_features files cached ef true true))
    ef (cachedValue cached ef) true files key
  constructor
  · show (lfGo _ ef true true files).features = _
    rw [h2]
    exact (lfGo_features_eq cached ef true files).symm
  · show (lfGo _ ef true true files).extracted = []
    rw [h2]

/-- Claim C8: one reconciliation step leaves the in-memory index
unchanged whenever the count of published identities equals the count
of image files on disk — regardless of the contents, so same-count
swaps go undetected; when the counts differ it re-runs `load_features`
and the new index is exactly the returned mapping (every returned
entry republished), with one entry per disk file. -/
theorem update_images_spec {n : ℕ} (images : List (String × Vec n))
    (disk_files : List String) (cached : List (String × Vec n))
    (ef : String → Vec n) :
    (images.length = disk_files.length →
      update_images images disk_files cached ef = images) ∧
    (images.length ≠ disk_files.length →
      update_images images disk_files cached ef
          = (load_features disk_files cached ef true true).features ∧
      (∀ pv ∈ (load_features disk_files cached ef true true).features,
        pv ∈ update_images images disk_files cached ef) ∧
      (update_images images disk_files cached ef).map Prod.fst = disk_files) := by
  constructor
  · intro h
    unfold update_images
    rw [if_pos h]
  · intro h
    have he : update_images images disk_files cached ef
        = (load_features disk_files cached ef true true).features := by
      unfold update_images
      rw [if_neg h]
    refine ⟨he, fun pv hpv => he ▸ hpv, ?_⟩
    rw [he]
    show (lfGo cached ef true true disk_files).features.map Prod.fst = disk_files
    rw [lfGo_features_eq cached ef true disk_files, List.map_map]
    exact List.map_id disk_files

/-- Constant extractor used by the C8 witness. -/
def efW : String → Vec 1 := fun _ _ => 0

/-- Witness for C8: a one-entry index against a one-file disk listing
with a different name is left untouched (same-count swap undetected),
while an empty index against the same listing is replaced by the
`load_features` result. -/
theorem update_images_spec_witness :
    update_images [(("x"), wvec)] [("y.jpg")] [] efW = [(("x"), wvec)] ∧
    update_images [] [("y.jpg")] [] efW
        = (load_features [("y.jpg")] [] efW true true).features :=
  ⟨(update_images_spec [(("x"), wvec)] [("y.jpg")] [] efW).1 (by simp),
    ((update_images_spec [] [("y.jpg")] [] efW).2 (by simp)).1⟩

/-- Boolean `score >= m` on numpy floats; false when the score is NaN. -/
noncomputable def npGe (s : NpF) (m : ℝ) : Bool := NpF.pdec (NpF.le (NpF.val m) s)

theorem npGe_val {m x : ℝ} : npGe (NpF.val x) m = true ↔ m ≤ x := by
  simp [npGe, pdec_eq_true, NpF.le]

theorem minSkip_some_val {m x : ℝ} (hm : m ≠ 0) :
    minSkip (some m) (NpF.val x) = true ↔ x < m := by
  simp [minSkip, pdec_eq_true, NpF.lt, hm]

theorem filterMap_min_eq_filter {n : ℕ} (ref : Vec n) (cpf epf m : ℝ)
    (hm : m ≠ 0) :
    ∀ vectors : List (String × Vec n),
      (∀ pv ∈ vectors, ∃ x, calc_similarity ref pv.2 cpf epf = NpF.val x) →
      vectors.filterMap (fun pv =>
          if minSkip (some m) (calc_similarity ref pv.2 cpf epf) then none
          else some (pv.1, calc_similarity ref pv.2 cpf epf))
        = (vectors.map (fun pv => (pv.1, calc_similarity ref pv.2 cpf epf))).filter
            (fun pr => npGe pr.2 m)
  | [], _ => rfl
  | pv :: rest, hall => by
    obtain ⟨x, hx⟩ := hall pv (List.mem_cons_self _ _)
    have hrest := filterMap_min_eq_filter ref cpf epf m hm rest
      (fun pv h => hall pv (List.mem_cons_of_mem _ h))
    simp only [List.filterMap_cons, List.map_cons, List.filter_cons, hx]
    by_cases hxm : x < m
    · rw [if_pos ((minSkip_some_val hm).mpr hxm)]
      have : npGe (NpF.val x) m = false := by
        rw [Bool.eq_false_iff]
        intro h
        exact absurd ((npGe_val).mp h) (not_le.mpr hxm)
      rw [this]
      simpa using hrest
    · rw [if_neg (by rw [minSkip_some_val hm]; exact hxm)]
      have : npGe (NpF.val x) m = true := npGe_val.mpr (not_lt.mp hxm)
      rw [this]
      simpa using hrest

theorem filterMap_min_zero {n : ℕ} (ref : Vec n) (cpf epf : ℝ)
    (vectors : List (String × Vec n)) :
    vectors.filterMap (fun pv =>
        if minSkip (some 0) (calc_similarity ref pv.2 cpf epf) then none
        else some (pv.1, calc_similarity ref pv.2 cpf epf))
      = vectors.map (fun pv => (pv.1, calc_similarity ref pv.2 cpf epf)) := by
  have hf : (fun pv : String × Vec n =>
      if minSkip (some 0) (calc_similarity ref pv.2 cpf epf) then none
      else some (pv.1, calc_similarity ref pv.2 cpf epf))
      = fun pv => some (pv.1, calc_similarity ref pv.2 cpf epf) := by
    funext pv
    rw [minSkip_zero]
    simp
  rw [hf]
  exact congrFun (List.filterMap_eq_map _) vectors

/-- Claim C9: the endpoint forwards its `max_similarity` straight
through (`None` when the query parameter is absent), overriding the
declared `0.9` default of `calc_similarities`; a `None` (or `0.0`)
`max_similarity` makes the truthiness guard disable the early exit
entirely, so the scan accumulates every entry with score `≥
min_similarity` (every entry at all when `min_similarity` is `0`),
sorts descending, and the endpoint truncates to `max_results`. -/
theorem none_max_disables_early_exit {n : ℕ} (ref : Vec n)
    (vectors : List (String × Vec n))
    (hval : ∀ pv ∈ vectors, ∃ x, calc_similarity ref pv.2 4 0.2 = NpF.val x) :
    calc_similarities ref vectors (some 0.2) none 4 0.2
        = sortDesc ((vectors.map (fun pv =>
            (pv.1, calc_similarity ref pv.2 4 0.2))).filter
            (fun pr => npGe pr.2 0.2)) ∧
    calc_similarities ref vectors (some 0.2) (some 0) 4 0.2
        = sortDesc ((vectors.map (fun pv =>
            (pv.1, calc_similarity ref pv.2 4 0.2))).filter
            (fun pr => npGe pr.2 0.2)) ∧
    calc_similarities ref vectors (some 0) none 4 0.2
        = sortDesc (vectors.map (fun pv =>
            (pv.1, calc_similarity ref pv.2 4 0.2))) ∧
    ∀ (st : ServerState n) (base_url url : String) (max_results : ℕ)
      (request_id : String) (now : ℚ) (li : String → Option Img)
      (extract : Img → Vec n) (ihash : Img → String) (images_dir : String)
      (img : Img),
      extract_name_extension url base_url = none → li url = some img →
      st.images = vectors → extract img = ref →
      (find_image st base_url url max_results none request_id now li extract
          ihash images_dir).1
        = FindOutcome.ok request_id
            (((calc_similarities ref vectors (some 0.2) none 4 0.2).take
                max_results).map
              (fun pr => (base_url ++ "image/" ++ pathName pr.1, pr.2))) := by
  refine ⟨?_, ?_, ?_, ?_⟩
  · have h := scanLoop_no_hit ref (some 0.2) none 4 0.2 vectors []
      (fun pv _ => maxHit_none _)
    rw [List.nil_append, filterMap_min_eq_filter ref 4 0.2 0.2
      (by norm_num) vectors hval] at h
    unfold calc_similarities
    rw [h]
  · have h := scanLoop_no_hit ref (some 0.2) (some 0) 4 0.2 vectors []
      (fun pv _ => maxHit_zero _)
    rw [List.nil_append, filterMap_min_eq_filter ref 4 0.2 0.2
      (by norm_num) vectors hval] at h
    unfold calc_similarities
    rw [h]
  · have h := scanLoop_no_hit ref (some 0) none 4 0.2 vectors []
      (fun pv _ => maxHit_none _)
    rw [List.nil_append, filterMap_min_zero ref 4 0.2 vectors] at h
    unfold calc_similarities
    rw [h]
  · intro st base_url url max_results request_id now li extract ihash
      images_dir img hname hload hst hextract
    unfold find_image
    rw [hname]
    dsimp only
    rw [hload]
    dsimp only
    rw [hst, hextract]

/-- Witness for C9 at the query `(1,0)` against the published vectors
`(0,1)`, `(1,0)`, instantiating every conjunct including the endpoint
wiring. -/
theorem none_max_disables_early_exit_witness :
    calc_similarities vx [("a", vy), ("b", vx)] (some 0.2) none 4 0.2
        = sortDesc (([("a", vy), ("b", vx)].map (fun pv =>
            (pv.1, calc_similarity vx pv.2 4 0.2))).filter
            (fun pr => npGe pr.2 0.2)) ∧
    calc_similarities vx [("a", vy), ("b", vx)] (some 0.2) (some 0) 4 0.2
        = sortDesc (([("a", vy), ("b", vx)].map (fun pv =>
            (pv.1, calc_similarity vx pv.2 4 0.2))).filter
            (fun pr => npGe pr.2 0.2)) ∧
    calc_similarities vx [("a", vy), ("b", vx)] (some 0) none 4 0.2
        = sortDesc ([("a", vy), ("b", vx)].map (fun pv =>
            (pv.1, calc_similarity vx pv.2 4 0.2))) ∧
    (find_image (⟨[("a", vy), ("b", vx)], [], []⟩ : ServerState 2)
        ("http://h/") ("u") 5 none ("rid") 0 (fun _ => some (37 : ℕ))
        (fun _ => vx) (fun _ => ("qh")) ("IMAGES")).1
      = FindOutcome.ok ("rid")
          (((calc_similarities vx [("a", vy), ("b", vx)] (some 0.2) none
              4 0.2).take 5).map
            (fun pr => (("http://h/") ++ "image/" ++ pathName pr.1, pr.2))) := by
  have hval : ∀ pv ∈ [(("a"), vy), (("b"), vx)],
      ∃ x, calc_similarity vx pv.2 4 0.2 = NpF.val x := by
    intro pv hpv
    simp only [List.mem_cons, List.not_mem_nil, or_false] at hpv
    rcases hpv with rfl | rfl
    · exact ⟨spec_score vx vy 4 0.2, calc_vx_vy⟩
    · exact ⟨1, calc_vx_vx⟩
  have h := none_max_disables_early_exit vx [(("a"), vy), (("b"), vx)] hval
  exact ⟨h.1, h.2.1, h.2.2.1,
    h.2.2.2 (⟨[(("a"), vy), (("b"), vx)], [], []⟩ : ServerState 2)
      ("http://h/") ("u") 5 ("rid") 0 (fun _ => some (37 : ℕ))
      (fun _ => vx) (fun _ => ("qh")) ("IMAGES") 37 rfl rfl rfl rfl⟩

/-- Claim C10: when the query URL matches the server's own
image-serving pattern and the named file exists on disk, the endpoint
answers a single result at similarity `1.0` and leaves the whole state
(in particular the pending-request cache) untouched, so a later
`save_image` with the returned `request_id` fails with `NotFound`. -/
theorem find_self_url_no_cache_entry {n : ℕ} (st : ServerState n)
    (base_url url file_name : String) (max_results : ℕ)
    (max_similarity : Option ℝ) (request_id : String) (now : ℚ)
    (li : String → Option Img) (extract : Img → Vec n) (ihash : Img → String)
    (images_dir cache_dir : String)
    (hname : extract_name_extension url base_url = some file_name)
    (hfile : images_dir ++ "/" ++ file_name ∈ st.files)
    (hrid : dictGet request_id st.requests_cache = none) :
    find_image st base_url url max_results max_similarity request_id now li
        extract ihash images_dir
      = (FindOutcome.ok request_id
          [(base_url ++ "image/" ++ file_name, NpF.val 1)], st) ∧
    (save_image st images_dir cache_dir base_url request_id).1
      = SaveResult.notFound := by
  constructor
  · unfold find_image
    rw [hname]
    dsimp only
    rw [if_pos hfile]
  · unfold save_image
    rw [hrid]

/-- Witness for C10: the self-URL `http://h/image/a.jpg` against a state
whose disk holds `IMAGES/a.jpg` and whose request cache is empty. -/
theorem find_self_url_no_cache_entry_witness :
    find_image (⟨[], [], [("IMAGES/a.jpg")]⟩ : ServerState 1) ("http://h/")
        ("http://h/image/a.jpg") 5 none ("rid") 0 (fun _ => some (37 : ℕ))
        (fun _ => zvec) (fun _ => ("qh")) ("IMAGES")
      = (FindOutcome.ok ("rid")
          [(("http://h/") ++ "image/" ++ "a.jpg", NpF.val 1)],
        (⟨[], [], [("IMAGES/a.jpg")]⟩ : ServerState 1)) ∧
    (save_image (⟨[], [], [("IMAGES/a.jpg")]⟩ : ServerState 1) ("IMAGES")
        ("CACHE") ("http://h/") ("rid")).1 = SaveResult.notFound :=
  find_self_url_no_cache_entry (⟨[], [], [("IMAGES/a.jpg")]⟩ : ServerState 1)
    ("http://h/") ("http://h/image/a.jpg") ("a.jpg") 5 none ("rid") 0
    (fun _ => some (37 : ℕ)) (fun _ => zvec) (fun _ => ("qh")) ("IMAGES")
    ("CACHE") rfl (List.mem_singleton.mpr (by decide)) rfl

end Finder
